import Mathlib

/-!
Verification of the span/property data model and the MFCC/vector-quantization
pipeline of the nltk repository.

Shallow embedding conventions:
* Python C-extension objects become Lean structures; machine `long int`
  indices become `ℤ` (no overflow is exercised by the modelled operations).
* Functions that can raise a Python exception return `Except LocError _`;
  the error constructors correspond to the `LOC_ERROR_00x` message strings
  of `ctoken.h` (003 incompatible units, 004 incompatible sources,
  005 not contiguous).
* C `unsigned int` arithmetic is modelled as `ℕ` with explicit reduction
  modulo `2^32` where wrap-around can occur.
* C `float`/`double` values are modelled as rationals (`ℚ`); trigonometric
  coefficient tables that the surrounding program precomputes are passed in
  as function parameters, exactly as the tables are external static data
  to the routines under verification.
-/

namespace CToken

/-- Errors raised by the Location operations in `ctoken.c`.  The constructors
correspond to the `LOC_ERROR_003` (incompatible units), `LOC_ERROR_004`
(incompatible sources) and `LOC_ERROR_005` (not contiguous) message strings. -/
inductive LocError where
  | incompatibleUnits
  | incompatibleSources
  | notContiguous
deriving DecidableEq, Repr

/-- Model of `nltkLocation` from `ctoken.c`: a span with `start`/`end`
indices (C `long int`, modelled as `ℤ`) plus a location context made of a
`unit` (a case-normalized string or None) and a `source` (an arbitrary
Python object or None, modelled by the type parameter `σ`).  The source
also has a compact `nltkLen1Location` variant storing only `start`, whose
`nltkLocation_END` macro yields `start + 1`; it is behaviourally a
`Location` with `end_ = start + 1`, so a single structure models both. -/
structure Location (σ : Type) where
  start : ℤ
  end_ : ℤ
  unit : Option String
  source : Option σ
deriving DecidableEq, Repr

variable {σ : Type} [DecidableEq σ]

/-- Model of `check_location_contexts_eq` in `ctoken.c`: succeeds iff the
units and the sources of the two location contexts compare equal, raising
`ValueError(LOC_ERROR_003)` on a unit mismatch (checked first) and
`ValueError(LOC_ERROR_004)` on a source mismatch.  The C fast path that
first compares context pointers (`CHECK_LOCATION_CONTEXTS_EQ`) is an
optimization with the same value semantics. -/
def check_location_contexts_eq (c1 c2 : Location σ) : Except LocError Unit :=
  if c1.unit ≠ c2.unit then Except.error LocError.incompatibleUnits
  else if c1.source ≠ c2.source then Except.error LocError.incompatibleSources
  else Except.ok ()

/-- Model of `nltkLocation_prec` (`ctoken.c` lines 352-368).  After the
context check it computes `s1 = self.start`, `e1 = self.end`,
`s2 = other.start`, `e2 = other.end` and returns the int of
`e2 <= s1 && s2 < e1`. -/
def nltkLocation_prec (self other : Location σ) : Except LocError Bool :=
  match check_location_contexts_eq self other with
  | Except.error e => Except.error e
  | Except.ok _ =>
      Except.ok (decide (other.end_ ≤ self.start ∧ other.start < self.end_))

/-- Model of `nltkLocation_succ` (`ctoken.c` lines 370-386).  Its body is
textually identical to `nltkLocation_prec`: it returns the int of
`e2 <= s1 && s2 < e1` with the very same operands (the known copy-paste
bug; the doc comment in the C source claims it should test that other
ends before self begins). -/
def nltkLocation_succ (self other : Location σ) : Except LocError Bool :=
  match check_location_contexts_eq self other with
  | Except.error e => Except.error e
  | Except.ok _ =>
      Except.ok (decide (other.end_ ≤ self.start ∧ other.start < self.end_))

/-- Model of `nltkLocation_overlaps` (`ctoken.c` lines 388-407): after the
context check it returns the int of
`(s1<=s2 && s2<e1) || (s2<=s1 && s1<e2) || (s1==s2 && s2==e1 && e1==e2)`. -/
def nltkLocation_overlaps (self other : Location σ) : Except LocError Bool :=
  match check_location_contexts_eq self other with
  | Except.error e => Except.error e
  | Except.ok _ =>
      Except.ok (decide ((self.start ≤ other.start ∧ other.start < self.end_) ∨
        (other.start ≤ self.start ∧ self.start < other.end_) ∨
        (self.start = other.start ∧ other.start = self.end_ ∧
          self.end_ = other.end_)))

/-- Model of `nltkLocation__add__` (`ctoken.c` lines 502-527): after the
context check, if `self.end == other.start` it returns a copy of `self`
with `end` set to `other.end`; otherwise if `other.end == self.start` it
returns a copy of `other` with `end` set to `self.end`; otherwise it raises
`ValueError(LOC_ERROR_005)`.  A copy keeps the start and context of the
original (`nltkLocation_copy`). -/
def nltkLocation__add__ (self other : Location σ) : Except LocError (Location σ) :=
  match check_location_contexts_eq self other with
  | Except.error e => Except.error e
  | Except.ok _ =>
      if self.end_ = other.start then
        Except.ok (Location.mk self.start other.end_ self.unit self.source)
      else if other.end_ = self.start then
        Except.ok (Location.mk other.start self.end_ other.unit other.source)
      else Except.error LocError.notContiguous

/-- Model of `nltkLocation_union` (`ctoken.c` lines 342-350), which parses
its argument and delegates to `nltkLocation__add__`. -/
def nltkLocation_union (self other : Location σ) : Except LocError (Location σ) :=
  nltkLocation__add__ self other

/-- Model of `nltkLocation__hash__` (`ctoken.c` lines 491-497): the hash of
a location is just its start index. -/
def nltkLocation__hash__ (self : Location σ) : ℤ :=
  self.start

/-- Model of the `locationObject` struct of `location_object.c`: start and
end indices (C `long int`), a unit (`char *`, NULL for None) and a source
(`PyObject *`). -/
structure locationObject (σ : Type) where
  start : ℤ
  end_ : ℤ
  unit : Option String
  source : σ
deriving DecidableEq, Repr

/-- Model of `location_hash` (`location_object.c` lines 245-250): the hash
of a location is just its start index. -/
def location_hash (loc : locationObject σ) : ℤ :=
  loc.start

/-- Model of `nltkType_select` (`ctoken.c` lines 1105-1167).  An `nltkType`
(the "PropertyBag") is its list of (property name, value) pairs.  If the
argument tuple is empty the method returns `self` unchanged; otherwise it
walks the properties of `self` and keeps exactly those whose name occurs
among the requested names (the inner loop over `args` with `break`, i.e. a
filter by membership).  Requested names absent from `self` are silently
ignored: no code path raises a KeyError (the source comment reads
"NOTE: THIS CURRENTLY IGNORES EXTRA PROPERTIES.  IS THAT OK?").  The
resulting property array is re-sorted by interned-pointer order, a value
preserving permutation; the model keeps the filtered order. -/
def nltkType_select {ν : Type} (self : List (String × ν)) (args : List String) :
    List (String × ν) :=
  if args = [] then self
  else self.filter (fun p => args.contains p.1)

end CToken

namespace Speech

/-- Model of the size computation at the head of `FFT_DIT`
(`SpeechProc.cpp` lines 280-284): starting from `n = 1, m = 0`, double `n`
and increment `m` while `n < length`.  The loop state `n` always equals
`2 ^ m`, so only `m` is carried; the first argument is fuel bounding the
iteration count (the C loop needs at most `length` iterations because
`length < 2 ^ length`, so callers pass `length` as fuel). -/
def fft_sizeLoop : ℕ → ℕ → ℕ → ℕ
  | 0, _, m => m
  | fuel + 1, length, m => if 2 ^ m < length then fft_sizeLoop fuel length (m + 1) else m

variable {α : Type} [Field α]

/-- Exchange of `input[i]` and `input[j]` inside the bit-reversal pass of
`FFT_DIT` (`SpeechProc.cpp` lines 292-299). -/
def swapEntries (buf : List (α × α)) (i j : ℕ) : List (α × α) :=
  let xi := buf.getD i (0, 0)
  let xj := buf.getD j (0, 0)
  (buf.set i xj).set j xi

/-- Model of the mirrored-counter update in the bit-reversal pass of
`FFT_DIT` (`SpeechProc.cpp` lines 300-304): `k = nv2; while (j >= k)
{ j -= k; k >>= 1; } j += k`.  The conjunct `1 ≤ k` is only relevant where
the C loop would not terminate (`k = 0 ≤ j`), a state unreachable from the
actual initialization `k = n/2` with `j < n`. -/
def bitrevIncr (j k : ℕ) : ℕ :=
  if h : 1 ≤ k ∧ k ≤ j then bitrevIncr (j - k) (k / 2) else j + k
termination_by k
decreasing_by exact Nat.div_lt_self h.1 one_lt_two

/-- Model of the bit-reversal permutation pass of `FFT_DIT`
(`SpeechProc.cpp` lines 290-305): for `i` from `0` to `n-2`, swap
`input[i]` with `input[j]` when `i < j`, then advance the mirrored
counter `j`. -/
def bitrevPass (buf : List (α × α)) (n : ℕ) : List (α × α) :=
  let nv2 := n / 2
  ((List.range (n - 1)).foldl
    (fun p i =>
      (if i < p.2 then swapEntries p.1 i p.2 else p.1, bitrevIncr p.2 nv2))
    (buf, 0)).1

/-- Model of one butterfly of `FFT_DIT` (`SpeechProc.cpp` lines 316-322):
with `tr + i*ti = input[ip] * W[u]`, store `(input[i] - (tr,ti))/2` at `ip`
and `(input[i] + (tr,ti))/2` at `i` (the per-stage `/2` scaling of this
FFT). -/
def butterflyPair (W : ℕ → α × α) (buf : List (α × α)) (i ip u : ℕ) :
    List (α × α) :=
  let xi := buf.getD i (0, 0)
  let xip := buf.getD ip (0, 0)
  let tr := xip.1 * (W u).1 - xip.2 * (W u).2
  let ti := xip.1 * (W u).2 + xip.2 * (W u).1
  (buf.set ip ((xi.1 - tr) / 2, (xi.2 - ti) / 2)).set i
    ((xi.1 + tr) / 2, (xi.2 + ti) / 2)

/-- Model of stage `l` of the butterfly phase of `FFT_DIT`
(`SpeechProc.cpp` lines 309-324): `le = 2^l`, `le1 = le/2`,
`w = length/le`; for `j` in `[0, le1)` with twiddle index `u = j*w`,
butterfly the pairs `(i, i+le1)` for `i = j, j+le, j+2*le, ...` below `n`
(the inner counted loop is rendered as a fold over its trip count). -/
def fftStage (W : ℕ → α × α) (n : ℕ) (buf : List (α × α)) (l : ℕ) :
    List (α × α) :=
  let le := 2 ^ l
  let le1 := le / 2
  let w := n / le
  (List.range le1).foldl
    (fun b j =>
      (List.range ((n - j + le - 1) / le)).foldl
        (fun b2 s => butterflyPair W b2 (j + s * le) (j + s * le + le1) (j * w))
        b)
    buf

/-- Model of `FFT_DIT` (`SpeechProc.cpp` lines 262-330), the in-place
radix-2 decimation-in-time FFT.  The float samples are modelled over a
field; the buffer is the list of (Re, Im) pairs and is returned alongside
the C return code.  `c1` and `c2` are the global 256-entry cosine tables
filled in by the `SpeechProc` constructor, from which the local twiddle
array is built as `W[i] = (C1[i], -C2[i])`.  After computing the smallest
`n = 2^m` with `n >= length`, the function returns `-1` with the buffer
untouched when `n != length`, and otherwise runs the bit-reversal pass
followed by the `m` butterfly stages and returns `0`. -/
def FFT_DIT (c1 c2 : ℕ → α) (input : List (α × α)) : Int × List (α × α) :=
  let W : ℕ → α × α := fun i => (c1 i, -(c2 i))
  let length := input.length
  let m := fft_sizeLoop length length 0
  let n := 2 ^ m
  if n ≠ length then (-1, input)
  else
    let rev := bitrevPass input n
    (0, (List.range m).foldl (fun b l => fftStage W n b (l + 1)) rev)

/-- Modulus of C `unsigned int` arithmetic. -/
def U32 : ℕ := 4294967296

/-- C `unsigned int` subtraction `a - b`, i.e. subtraction modulo `2^32`. -/
def u32sub (a b : ℕ) : ℕ :=
  (a % U32 + U32 - b % U32) % U32

/-- Model of `SpeechProc::FeatureExtract` (`SpeechProc.cpp` lines 125-181).
All counters are C `unsigned int`, so the subtractions wrap modulo `2^32`:
`voiceLength = voiceL - 1` and
`frameNum = (voiceLength - (frameWidth - frameStep)) / frameStep`.
For each frame index `i` below `frameNum` the code calls
`MFCC_EXTRACT(&voice[i*frameStep], frameWidth, Cepstrum_order, cc[i])` and
then multiplies each of the `Cepstrum_order` coefficients by the liftering
weight `wc[k]`; the copy of `cc` into `f` is the identity.  The per-frame
transform `MFCC_EXTRACT` (a separate static function involving `log`/`cos`)
and the precomputed lifter table `wc` are passed in as parameters; the C
pointer `&voice[i*frameStep]` becomes the suffix of the sample list
starting at index `i*frameStep`. -/
def FeatureExtract (mfcc : List ℤ → List ℚ) (wc : ℕ → ℚ)
    (cepOrder frameWidth frameStep : ℕ) (voice : List ℤ) : List (List ℚ) :=
  let voiceLength := u32sub voice.length 1
  let frameNum := u32sub voiceLength (u32sub frameWidth frameStep) / frameStep
  (List.range frameNum).map (fun i =>
    let c := mfcc (List.drop (i * frameStep) voice)
    (List.range cepOrder).map (fun k => c.getD k 0 * wc k))

end Speech

namespace VQ

/-- Dimension of the feature vectors (`num_dimensions` in `pspeech.h`). -/
def num_dimensions : ℕ := 12

/-- The perturbation / convergence constant of `vecquant.cpp`
(`EPSILON = 0.01`). -/
def EPSILON : ℚ := 1 / 100

/-- A `vector` of `pspeech.h`: the `num_dimensions` double components,
modelled as a list of rationals (all vectors handled by the program have
length `num_dimensions`). -/
abbrev Vec := List ℚ

/-- Model of `vec_zero` (`vec.cpp`): the all-zero vector. -/
def vec_zero : Vec := List.replicate num_dimensions 0

/-- Model of `vec_add` (`vec.cpp`): componentwise sum. -/
def vec_add (a b : Vec) : Vec := List.zipWith (· + ·) a b

/-- Model of `vec_sub` (`vec.cpp`): componentwise difference. -/
def vec_sub (a b : Vec) : Vec := List.zipWith (· - ·) a b

/-- Model of `vec_scale` (`vec.cpp`): multiply every component by `x`. -/
def vec_scale (x : ℚ) (v : Vec) : Vec := v.map (fun c => c * x)

/-- Model of `vec_dot` (`vec.cpp`): sum of componentwise products. -/
def vec_dot (a b : Vec) : ℚ := (List.zipWith (· * ·) a b).sum

/-- Loop of `closest_codeword` (`vecquant.cpp` lines 43-60), carrying the
running index `i`, the best squared distance found and its index
(`best_index`, initially `-1`). -/
def closestAux (v : Vec) : List Vec → ℕ → ℚ → Int → Int
  | [], _, _, best_index => best_index
  | c :: rest, i, best, best_index =>
      let d := vec_sub v c
      let val := vec_dot d d
      if best_index = -1 ∨ val < best then closestAux v rest (i + 1) val (i : Int)
      else closestAux v rest (i + 1) best best_index

/-- Model of `closest_codeword` (`vecquant.cpp` lines 43-60): index of the
codeword closest to `v` under squared Euclidean distance, ties broken by
the lowest index (the comparison is strict `<`); `-1` when the codebook
is empty. -/
def closest_codeword (cwds : List Vec) (v : Vec) : Int :=
  closestAux v cwds 0 0 (-1)

/-- Model of the assignment loop of the Lloyd step (`vecquant.cpp` lines
106-116): after zeroing `qc` and `qvec`, for each input vector find its
closest codeword `c`, record it in `qval`, add the vector into `qvec[c]`
and bump `qc[c]`.  Returns `(qval, qvec, qc)`. -/
def lloydAssign (cwds : List Vec) (vecs : List Vec) :
    List ℕ × List Vec × List ℕ :=
  vecs.foldl
    (fun st v =>
      let c := (closest_codeword cwds v).toNat
      (st.1 ++ [c],
       st.2.1.set c (vec_add (st.2.1.getD c vec_zero) v),
       st.2.2.set c (st.2.2.getD c 0 + 1)))
    ([], List.replicate cwds.length vec_zero, List.replicate cwds.length 0)

/-- Model of the centroid-update loop of the Lloyd step (`vecquant.cpp`
lines 118-124): each new codeword `j` is `qvec[j]` scaled by
`1 / (qc[j] + EPSILON)` (the `EPSILON` in the denominator is the source's
fudge factor against division by zero for empty clusters). -/
def lloydNewCwds (cwds : List Vec) (qvec : List Vec) (qc : List ℕ) :
    List Vec :=
  (List.range cwds.length).map (fun j =>
    vec_scale (1 / ((qc.getD j 0 : ℚ) + EPSILON)) (qvec.getD j vec_zero))

/-- Model of the distortion accumulation of `vecquant.cpp` (lines 129-135):
the sum over all vectors of the squared distance to their assigned codeword
`oldcwds[qval[i]]`, divided by `num_vectors * num_dimensions`. -/
def distortion (vecs : List Vec) (cwds : List Vec) (qval : List ℕ) : ℚ :=
  ((List.zip vecs qval).foldl
    (fun acc p =>
      let t := vec_sub p.1 (cwds.getD p.2 vec_zero)
      acc + vec_dot t t)
    0) / ((vecs.length : ℚ) * (num_dimensions : ℚ))

/-- Model of the `do { ... } while ((old_d_av - cur_d_av)/old_d_av >
EPSILON)` Lloyd iteration of `vecquant.cpp` (lines 102-136), with fuel
bounding the number of iterations (`none` models a run that has not
converged within the fuel).  Each pass assigns all vectors to the current
codebook, rebuilds the codebook, and measures the distortion of the
assignment against the codebook that produced it. -/
def iterateLoop (vecs : List Vec) : ℕ → List Vec → ℚ → Option (List Vec × ℚ)
  | 0, _, _ => none
  | fuel + 1, curcwds, cur_d_av =>
      let st := lloydAssign curcwds vecs
      let newcwds := lloydNewCwds curcwds st.2.1 st.2.2
      let old_d_av := cur_d_av
      let new_d_av := distortion vecs curcwds st.1
      if (old_d_av - new_d_av) / old_d_av > EPSILON then
        iterateLoop vecs fuel newcwds new_d_av
      else some (newcwds, new_d_av)

/-- Model of the split step of `vecquant.cpp` (lines 93-99): every codeword
`c` is replaced by the pair of perturbed codewords `c*(1+EPSILON)` (at the
even slot `2i`) and `c*(1-EPSILON)` (at the odd slot `2i+1`), doubling the
codebook. -/
def splitCodewords (cwds : List Vec) : List Vec :=
  (cwds.map (fun c => [vec_scale (1 + EPSILON) c, vec_scale (1 - EPSILON) c])).flatten

/-- Model of the outer `while (num_codewords < desired_codewords)` loop of
`vecquant` (`vecquant.cpp` lines 90-143): split the codebook, run the Lloyd
iteration to convergence, and repeat.  `outer` fuel bounds the number of
splits (the C loop always terminates because the codebook doubles) and
`innerFuel` bounds each Lloyd iteration. -/
def splitLoop (vecs : List Vec) (desired : ℕ) (innerFuel : ℕ) :
    ℕ → List Vec → ℚ → Option (List Vec)
  | 0, cwds, _ => if cwds.length < desired then none else some cwds
  | outer + 1, cwds, d_av =>
      if cwds.length < desired then
        match iterateLoop vecs innerFuel (splitCodewords cwds) d_av with
        | none => none
        | some r => splitLoop vecs desired innerFuel outer r.1 r.2
      else some cwds

/-- Model of `vecquant` (`vecquant.cpp` lines 66-145): initialize the
codebook with the single centroid of all input vectors (their sum scaled
by `1/num_vectors`), compute the initial average distortion, then run the
split-and-iterate loop until the codebook has at least `desired`
codewords.  The two fuels bound the outer loop and each inner Lloyd
iteration; a `some` result models a terminating run of the C code. -/
def vecquant (outerFuel innerFuel : ℕ) (desired : ℕ) (vecs : List Vec) :
    Option (List Vec) :=
  let c0 := vec_scale (1 / (vecs.length : ℚ)) (vecs.foldl vec_add vec_zero)
  let d_av := (vecs.foldl (fun acc v =>
      let t := vec_sub v c0
      acc + vec_dot t t) 0) / ((vecs.length : ℚ) * (num_dimensions : ℚ))
  splitLoop vecs desired innerFuel outerFuel [c0] d_av

end VQ

/-- Claim C2: for every pair of Spans (self, other) with matching unit and
source context, prec(self, other) and succ(self, other) return exactly the
same boolean value (the two predicates are extensionally equal),
reproducing the known copy-paste bug: the bodies of `nltkLocation_prec`
and `nltkLocation_succ` are textually identical in `ctoken.c`. -/
theorem claim_C2_prec_succ_identical {σ : Type} [DecidableEq σ]
    (self other : CToken.Location σ)
    (_hu : self.unit = other.unit) (_hs : self.source = other.source) :
    CToken.nltkLocation_prec self other = CToken.nltkLocation_succ self other :=
  rfl

/-- Witness for claim C2: the spans 0-3 and 5-9 with the same unit and no
source agree on prec versus succ. -/
theorem claim_C2_witness :
    (CToken.Location.mk 0 3 (some "w") none : CToken.Location Unit).unit =
        (CToken.Location.mk 5 9 (some "w") none : CToken.Location Unit).unit ∧
      (CToken.Location.mk 0 3 (some "w") none : CToken.Location Unit).source =
        (CToken.Location.mk 5 9 (some "w") none : CToken.Location Unit).source ∧
      CToken.nltkLocation_prec
          (CToken.Location.mk 0 3 (some "w") none : CToken.Location Unit)
          (CToken.Location.mk 5 9 (some "w") none) =
        CToken.nltkLocation_succ
          (CToken.Location.mk 0 3 (some "w") none : CToken.Location Unit)
          (CToken.Location.mk 5 9 (some "w") none) :=
  ⟨rfl, rfl, claim_C2_prec_succ_identical _ _ rfl rfl⟩

/-- Claim C7: for every pair of Spans with matching unit and source,
overlaps(self, other) returns true if and only if
self.start <= other.start < self.end, or other.start <= self.start <
other.end, or both spans are identical zero-length spans at the same point
(self.start == other.start == self.end == other.end). -/
theorem claim_C7_overlaps_iff {σ : Type} [DecidableEq σ]
    (self other : CToken.Location σ)
    (hu : self.unit = other.unit) (hs : self.source = other.source) :
    CToken.nltkLocation_overlaps self other = Except.ok true ↔
      ((self.start ≤ other.start ∧ other.start < self.end_) ∨
       (other.start ≤ self.start ∧ self.start < other.end_) ∨
       (self.start = other.start ∧ other.start = self.end_ ∧
         self.end_ = other.end_)) := by
  simp [CToken.nltkLocation_overlaps, CToken.check_location_contexts_eq, hu, hs]

/-- Witness for claim C7: the spans 0-3 and 2-5 with no unit and no source
overlap. -/
theorem claim_C7_witness :
    (CToken.Location.mk 0 3 none none : CToken.Location Unit).unit =
        (CToken.Location.mk 2 5 none none : CToken.Location Unit).unit ∧
      CToken.nltkLocation_overlaps
          (CToken.Location.mk 0 3 none none : CToken.Location Unit)
          (CToken.Location.mk 2 5 none none) = Except.ok true :=
  ⟨rfl, (claim_C7_overlaps_iff
      (CToken.Location.mk 0 3 none none : CToken.Location Unit)
      (CToken.Location.mk 2 5 none none) rfl rfl).mpr (Or.inl (by norm_num))⟩

/-- Claim C10: for every Span/Location, hash(loc) equals loc.start, in both
the `ctoken.c` implementation (`nltkLocation__hash__`) and the
`location_object.c` implementation (`location_hash`); consequently any two
Locations with the same start hash equal regardless of end, unit or
source. -/
theorem claim_C10_hash_is_start {σ : Type} [DecidableEq σ]
    (l l1 l2 : CToken.Location σ) (lo : CToken.locationObject σ)
    (hst : l1.start = l2.start) :
    CToken.nltkLocation__hash__ l = l.start ∧
      CToken.location_hash lo = lo.start ∧
      CToken.nltkLocation__hash__ l1 = CToken.nltkLocation__hash__ l2 :=
  ⟨rfl, rfl, hst⟩

/-- Witness for claim C10: two distinct locations sharing start index 5
(different ends, units and sources) hash identically, and the hash is the
start. -/
theorem claim_C10_witness :
    (CToken.Location.mk 5 9 (some "w") none : CToken.Location Unit).start =
        (CToken.Location.mk 5 7 none (some ()) : CToken.Location Unit).start ∧
      CToken.nltkLocation__hash__
          (CToken.Location.mk 5 9 (some "w") none : CToken.Location Unit) = 5 ∧
      CToken.nltkLocation__hash__
          (CToken.Location.mk 5 9 (some "w") none : CToken.Location Unit) =
        CToken.nltkLocation__hash__
          (CToken.Location.mk 5 7 none (some ()) : CToken.Location Unit) := by
  refine ⟨rfl, ?_, ?_⟩
  · exact (claim_C10_hash_is_start (CToken.Location.mk 5 9 (some "w") none)
      (CToken.Location.mk 5 9 (some "w") none)
      (CToken.Location.mk 5 7 none (some ()))
      (CToken.locationObject.mk 0 0 none ()) rfl).1
  · exact (claim_C10_hash_is_start (CToken.Location.mk 5 9 (some "w") none)
      (CToken.Location.mk 5 9 (some "w") none)
      (CToken.Location.mk 5 7 none (some ()))
      (CToken.locationObject.mk 0 0 none ()) rfl).2.2

/-- Claim C3: for every pair of Spans with matching unit and source, union
succeeds if and only if self.end == other.start or other.end == self.start,
in which case it returns the span covering both (smallest start to largest
end, with the same context), and fails with the not-contiguous error
otherwise; for any pair with mismatched unit or source it fails with one of
the two incompatible-context errors (incompatible units or incompatible
sources, the two halves of the spec's IncompatibleContext). -/
theorem claim_C3_union_spec {σ : Type} [DecidableEq σ]
    (self other : CToken.Location σ) :
    ((self.unit = other.unit ∧ self.source = other.source) →
      ((self.start ≤ self.end_ → other.start ≤ other.end_ →
        (self.end_ = other.start ∨ other.end_ = self.start) →
        CToken.nltkLocation_union self other =
          Except.ok (CToken.Location.mk (min self.start other.start)
            (max self.end_ other.end_) self.unit self.source)) ∧
       (¬(self.end_ = other.start ∨ other.end_ = self.start) →
        CToken.nltkLocation_union self other =
          Except.error CToken.LocError.notContiguous))) ∧
    ((self.unit ≠ other.unit ∨ self.source ≠ other.source) →
      (CToken.nltkLocation_union self other =
          Except.error CToken.LocError.incompatibleUnits ∨
        CToken.nltkLocation_union self other =
          Except.error CToken.LocError.incompatibleSources)) := by
  constructor
  · rintro ⟨hu, hs⟩
    constructor
    · intro h1 h2 hcont
      by_cases hc1 : self.end_ = other.start
      · have hmin : min self.start other.start = self.start := by
          apply min_eq_left; omega
        have hmax : max self.end_ other.end_ = other.end_ := by
          apply max_eq_right; omega
        simp [CToken.nltkLocation_union, CToken.nltkLocation__add__,
          CToken.check_location_contexts_eq, hu, hs, hc1, hmin, hmax, h1, h2]
      · have hc2 : other.end_ = self.start := hcont.resolve_left hc1
        have hmin : min self.start other.start = other.start := by
          apply min_eq_right; omega
        have hmax : max self.end_ other.end_ = self.end_ := by
          apply max_eq_left; omega
        simp [CToken.nltkLocation_union, CToken.nltkLocation__add__,
          CToken.check_location_contexts_eq, hu, hs, hc1, hc2, hmin, hmax, h1, h2]
    · intro hcont
      push_neg at hcont
      simp [CToken.nltkLocation_union, CToken.nltkLocation__add__,
        CToken.check_location_contexts_eq, hu, hs, hcont.1, hcont.2]
  · intro hne
    by_cases hu : self.unit = other.unit
    · have hs : self.source ≠ other.source := by tauto
      right
      simp [CToken.nltkLocation_union, CToken.nltkLocation__add__,
        CToken.check_location_contexts_eq, hu, hs]
    · left
      simp [CToken.nltkLocation_union, CToken.nltkLocation__add__,
        CToken.check_location_contexts_eq, hu]

/-- Witness for claim C3: Span(0,3).union(Span(3,7)) = Span(0,7), and
Span(0,3).union(Span(4,7)) fails with the not-contiguous error. -/
theorem claim_C3_witness :
    CToken.nltkLocation_union
        (CToken.Location.mk 0 3 none none : CToken.Location Unit)
        (CToken.Location.mk 3 7 none none) =
      Except.ok (CToken.Location.mk 0 7 none none) ∧
    CToken.nltkLocation_union
        (CToken.Location.mk 0 3 none none : CToken.Location Unit)
        (CToken.Location.mk 4 7 none none) =
      Except.error CToken.LocError.notContiguous := by
  constructor
  · have h := ((claim_C3_union_spec
        (CToken.Location.mk 0 3 none none : CToken.Location Unit)
        (CToken.Location.mk 3 7 none none)).1 ⟨rfl, rfl⟩).1
      (by norm_num) (by norm_num) (Or.inl (by norm_num))
    simpa using h
  · exact ((claim_C3_union_spec
        (CToken.Location.mk 0 3 none none : CToken.Location Unit)
        (CToken.Location.mk 4 7 none none)).1 ⟨rfl, rfl⟩).2
      (by norm_num)

/-- Claim C1 counterexample: the claim asserts that select fails with a
KeyNotFound error when a requested key is absent, and that otherwise the
result's key set is exactly the requested keys.  On the code,
`PropertyBag({a:1, b:2}).select([z])` does not fail at all: it returns the
empty bag, whose key list is not `[z]` — absent keys are silently dropped
(no code path of `nltkType_select` raises an error, so the model's return
type is the bag itself). -/
theorem claim_C1_counterexample :
    CToken.nltkType_select [("a", (1 : ℤ)), ("b", 2)] ["z"] = [] ∧
      ¬ List.map Prod.fst
          (CToken.nltkType_select [("a", (1 : ℤ)), ("b", 2)] ["z"]) = ["z"] := by
  constructor
  · rfl
  · intro h
    simp [CToken.nltkType_select] at h

/-- Helper for claim C1: taking the key of every kept property commutes
with the filtering done by `nltkType_select`. -/
theorem select_map_fst_eq_filter {ν : Type} (ks : List String) :
    ∀ bag : List (String × ν),
      List.map Prod.fst (bag.filter (fun p => ks.contains p.1)) =
        (List.map Prod.fst bag).filter (fun k => ks.contains k) := by
  intro bag
  induction bag with
  | nil => rfl
  | cons p t ih =>
      by_cases hc : p.1 ∈ ks
      · simp [List.filter_cons, hc]
        simpa using ih
      · simp [List.filter_cons, hc]
        simpa using ih

/-- Claim C1 amended: for every PropertyBag b and non-empty list of
requested keys ks, select(ks) never fails; it returns the bag containing
exactly those requested keys that are present in b, with the values those
keys have in b (absent requested keys are silently ignored).  In
particular, when every key in ks is present in b, the key set of the
result is exactly the key set of ks. -/
theorem claim_C1_select_amended {ν : Type} (bag : List (String × ν))
    (ks : List String) (hne : ks ≠ []) :
    (List.map Prod.fst (CToken.nltkType_select bag ks) =
        (List.map Prod.fst bag).filter (fun k => ks.contains k)) ∧
      (∀ k v, (k, v) ∈ CToken.nltkType_select bag ks ↔
        ((k, v) ∈ bag ∧ k ∈ ks)) ∧
      ((∀ k ∈ ks, k ∈ List.map Prod.fst bag) →
        ∀ k, (k ∈ List.map Prod.fst (CToken.nltkType_select bag ks) ↔ k ∈ ks)) := by
  have hsel : CToken.nltkType_select bag ks =
      bag.filter (fun p => ks.contains p.1) := by
    simp [CToken.nltkType_select, hne]
  refine ⟨?_, ?_, ?_⟩
  · rw [hsel]
    exact select_map_fst_eq_filter ks bag
  · intro k v
    rw [hsel]
    simp [List.mem_filter]
  · intro hall k
    rw [hsel, select_map_fst_eq_filter ks bag]
    constructor
    · intro hk
      have := List.of_mem_filter hk
      simpa using this
    · intro hk
      refine List.mem_filter.mpr ⟨hall k hk, by simpa using hk⟩

/-- Witness for claim C1 (amended): selecting the present key a from
{a:1, b:2} keeps exactly the pair (a, 1). -/
theorem claim_C1_witness :
    (("a" : String) ∈
        List.map Prod.fst
          (CToken.nltkType_select [("a", (1 : ℤ)), ("b", 2)] ["a"]) ↔
      ("a" : String) ∈ ["a"]) ∧
      (("a", (1 : ℤ)) ∈ CToken.nltkType_select [("a", (1 : ℤ)), ("b", 2)] ["a"] ↔
        (("a", (1 : ℤ)) ∈ [("a", (1 : ℤ)), ("b", 2)] ∧ ("a" : String) ∈ ["a"])) := by
  constructor
  · exact (claim_C1_select_amended [("a", (1 : ℤ)), ("b", 2)] ["a"]
      (by decide)).2.2 (by decide) "a"
  · exact (claim_C1_select_amended [("a", (1 : ℤ)), ("b", 2)] ["a"]
      (by decide)).2.1 "a" 1

/-- Helper: with enough fuel, the FFT size loop reaches an exponent whose
power of two is at least the requested length. -/
theorem fft_sizeLoop_ge (len : ℕ) :
    ∀ fuel m, len ≤ 2 ^ (m + fuel) → len ≤ 2 ^ (Speech.fft_sizeLoop fuel len m) := by
  intro fuel
  induction fuel with
  | zero =>
      intro m h
      simpa [Speech.fft_sizeLoop] using h
  | succ f ih =>
      intro m h
      by_cases hc : 2 ^ m < len
      · have harr : (m + 1) + f = m + (f + 1) := by omega
        have h2 : len ≤ 2 ^ ((m + 1) + f) := by rw [harr]; exact h
        simpa [Speech.fft_sizeLoop, hc] using ih (m + 1) h2
      · simpa [Speech.fft_sizeLoop, hc] using Nat.le_of_not_lt hc
  
/-- Helper: on a length that is exactly a power of two, the FFT size loop
computes exactly that exponent. -/
theorem fft_sizeLoop_pow (k : ℕ) :
    ∀ fuel m, m ≤ k → k ≤ m + fuel → Speech.fft_sizeLoop fuel (2 ^ k) m = k := by
  intro fuel
  induction fuel with
  | zero =>
      intro m h1 h2
      have : m = k := by omega
      simp [Speech.fft_sizeLoop, this]
  | succ f ih =>
      intro m h1 h2
      by_cases hc : 2 ^ m < 2 ^ k
      · have hmk : m < k := by
          exact (Nat.pow_lt_pow_iff_right (by norm_num)).mp hc
        simpa [Speech.fft_sizeLoop, hc] using ih (m + 1) (by omega) (by omega)
      · have hkm : k ≤ m := by
          have := Nat.le_of_not_lt hc
          exact (Nat.pow_le_pow_iff_right (by norm_num)).mp this
        have : m = k := by omega
        simp [Speech.fft_sizeLoop, hc, this]

/-- Helper: the head computation of `FFT_DIT` reproduces the input length
exactly when that length is a power of two. -/
theorem fft_pow_iff (len : ℕ) :
    2 ^ (Speech.fft_sizeLoop len len 0) = len ↔ ∃ k, len = 2 ^ k := by
  constructor
  · intro h
    exact ⟨Speech.fft_sizeLoop len len 0, h.symm⟩
  · rintro ⟨k, rfl⟩
    have hk : k ≤ 0 + 2 ^ k := by
      have := Nat.lt_two_pow k
      omega
    rw [fft_sizeLoop_pow k (2 ^ k) 0 (Nat.zero_le k) hk]

/-- Claim C4: for every input length, the in-place FFT (FFT_DIT) returns an
error code (nonzero result, namely -1) if and only if the length is not a
power of two; for every power-of-two length it returns success (0). -/
theorem claim_C4_fft_error_iff_not_pow2 {α : Type} [Field α]
    (c1 c2 : ℕ → α) (input : List (α × α)) :
    ((Speech.FFT_DIT c1 c2 input).1 = 0 ↔ ∃ k, input.length = 2 ^ k) ∧
      ((Speech.FFT_DIT c1 c2 input).1 ≠ 0 ↔ ¬ ∃ k, input.length = 2 ^ k) := by
  have hiff := fft_pow_iff input.length
  by_cases hc : 2 ^ (Speech.fft_sizeLoop input.length input.length 0) = input.length
  · have hex := hiff.mp hc
    constructor
    · simp [Speech.FFT_DIT, hc, hex]
    · simp [Speech.FFT_DIT, hc, hex]
  · have hnex : ¬ ∃ k, input.length = 2 ^ k := fun hx => hc (hiff.mpr hx)
    constructor
    · simp [Speech.FFT_DIT, hc, hnex]
    · simp [Speech.FFT_DIT, hc, hnex]

/-- Claim C9: when FFT_DIT is called with a length that is not a power of
two, it returns the error code -1 before performing any bit-reversal or
butterfly operation, so the complex input buffer is returned completely
unmodified (error atomicity). -/
theorem claim_C9_fft_error_atomic {α : Type} [Field α]
    (c1 c2 : ℕ → α) (input : List (α × α))
    (h : ¬ ∃ k, input.length = 2 ^ k) :
    (Speech.FFT_DIT c1 c2 input).1 = -1 ∧
      (Speech.FFT_DIT c1 c2 input).2 = input := by
  have hlen : 2 ^ (Speech.fft_sizeLoop input.length input.length 0) ≠ input.length :=
    fun hq => h ((fft_pow_iff input.length).mp hq)
  constructor
  · simp [Speech.FFT_DIT, hlen]
  · simp [Speech.FFT_DIT, hlen]

/-- Witness for claim C9: a buffer of length 3 (not a power of two) is
returned untouched together with the error code. -/
theorem claim_C9_witness :
    (¬ ∃ k, ([((1 : ℚ), 0), (2, 0), (3, 0)] : List (ℚ × ℚ)).length = 2 ^ k) ∧
      (Speech.FFT_DIT (fun _ => (0 : ℚ)) (fun _ => 0)
          [((1 : ℚ), 0), (2, 0), (3, 0)]).2 = [((1 : ℚ), 0), (2, 0), (3, 0)] := by
  have h3 : ¬ ∃ k, (3 : ℕ) = 2 ^ k := by
    rintro ⟨k, hk⟩
    match k with
    | 0 => simp at hk
    | 1 => simp at hk
    | k + 2 =>
        have h4 : 2 ^ 2 ≤ 2 ^ (k + 2) := Nat.pow_le_pow_right (by norm_num) (by omega)
        norm_num at h4
        omega
  have hlen : ([((1 : ℚ), 0), (2, 0), (3, 0)] : List (ℚ × ℚ)).length = 3 := rfl
  refine ⟨by simpa [hlen] using h3, ?_⟩
  exact (claim_C9_fft_error_atomic (fun _ => (0 : ℚ)) (fun _ => 0)
    [((1 : ℚ), 0), (2, 0), (3, 0)] (by simpa [hlen] using h3)).2

/-- Claim C6 amended: for every sample buffer of length N with N >= 1,
frameStep > 0, N-1 >= frameWidth-frameStep as integers, N, frameWidth and
frameStep each below 2^32, and additionally no wrap-around in the
frame-count subtraction ((N-1) - (frameWidth-frameStep) < 2^32, the
condition the counterexample violates), FeatureExtract computes the number
of frames as frameCount = floor((N-1 - (frameWidth-frameStep)) /
frameStep) and processes exactly that many frames, frame i being fed to
the per-frame transform starting at sample index i*frameStep and then
multiplied by the liftering weights. -/
theorem claim_C6_feature_extract_frames (mfcc : List ℤ → List ℚ) (wc : ℕ → ℚ)
    (cepOrder frameWidth frameStep : ℕ) (voice : List ℤ)
    (hN1 : 1 ≤ voice.length) (hN : voice.length < Speech.U32)
    (hW : frameWidth < Speech.U32) (hS : frameStep < Speech.U32)
    (_hstep : 0 < frameStep)
    (hfit : (frameWidth : ℤ) - (frameStep : ℤ) ≤ (voice.length : ℤ) - 1)
    (hrange : (voice.length : ℤ) - 1 - ((frameWidth : ℤ) - (frameStep : ℤ)) <
      (Speech.U32 : ℤ)) :
    ((Speech.FeatureExtract mfcc wc cepOrder frameWidth frameStep voice).length : ℤ) =
        ((voice.length : ℤ) - 1 - ((frameWidth : ℤ) - (frameStep : ℤ))) /
          (frameStep : ℤ) ∧
      ∀ i, i < (Speech.FeatureExtract mfcc wc cepOrder frameWidth frameStep voice).length →
        (Speech.FeatureExtract mfcc wc cepOrder frameWidth frameStep voice).getD i [] =
          (List.range cepOrder).map
            (fun k => (mfcc (List.drop (i * frameStep) voice)).getD k 0 * wc k) := by
  have hC : ((Speech.u32sub (Speech.u32sub voice.length 1)
      (Speech.u32sub frameWidth frameStep)) : ℤ) =
      (voice.length : ℤ) - 1 - ((frameWidth : ℤ) - (frameStep : ℤ)) := by
    simp only [Speech.u32sub, Speech.U32] at *
    omega
  have hlen : (Speech.FeatureExtract mfcc wc cepOrder frameWidth frameStep voice).length =
      Speech.u32sub (Speech.u32sub voice.length 1)
        (Speech.u32sub frameWidth frameStep) / frameStep := by
    simp [Speech.FeatureExtract]
  constructor
  · rw [hlen, Int.ofNat_tdiv, hC]
    exact Int.tdiv_eq_ediv (by omega) (by omega)
  · intro i hi
    rw [hlen] at hi
    simp only [Speech.FeatureExtract]
    rw [List.getD_eq_getElem?_getD, List.getElem?_map, List.getElem?_range hi]
    rfl

/-- Witness for claim C6: an 11-sample buffer with frameWidth 4 and
frameStep 3 yields (11-1-(4-3))/3 = 3 frames, and frame 1 is computed from
the suffix starting at sample index 3. -/
theorem claim_C6_witness :
    (Speech.FeatureExtract (fun l => [(l.length : ℚ)]) (fun _ => 1) 1 4 3
        (List.replicate 11 0)).length = 3 ∧
      (Speech.FeatureExtract (fun l => [(l.length : ℚ)]) (fun _ => 1) 1 4 3
          (List.replicate 11 0)).getD 1 [] =
        (List.range 1).map
          (fun k => ((fun l => [(l.length : ℚ)]) (List.drop (1 * 3)
            (List.replicate 11 (0 : ℤ)))).getD k 0 * (fun _ => (1 : ℚ)) k) := by
  have h := claim_C6_feature_extract_frames (fun l => [(l.length : ℚ)]) (fun _ => 1)
    1 4 3 (List.replicate 11 0)
    (by simp) (by norm_num [Speech.U32]) (by norm_num [Speech.U32])
    (by norm_num [Speech.U32]) (by norm_num) (by simp) (by norm_num [Speech.U32])
  have hl := h.1
  simp only [List.length_replicate] at hl
  norm_num at hl
  refine ⟨by exact_mod_cast hl, ?_⟩
  exact h.2 1 (by omega)

/-- Claim C6 counterexample: with a 3-sample buffer, frameWidth 1 and
frameStep 2^32 - 1, the claim's stated preconditions hold (frameStep > 0,
and N-1 >= frameWidth - frameStep as integers) and the claimed formula
gives floor((N-1 - (frameWidth-frameStep)) / frameStep) =
floor(4294967296 / 4294967295) = 1 frame, but the code's C unsigned
arithmetic wraps (frameWidth - frameStep = 2 as an unsigned int, so
frameNum = (2 - 2) / frameStep = 0) and FeatureExtract processes 0
frames. -/
theorem claim_C6_counterexample :
    (0 : ℕ) < 4294967295 ∧
      ((1 : ℤ) - (4294967295 : ℤ) ≤ ((List.replicate 3 (0 : ℤ)).length : ℤ) - 1) ∧
      (((List.replicate 3 (0 : ℤ)).length : ℤ) - 1 - ((1 : ℤ) - (4294967295 : ℤ))) /
          (4294967295 : ℤ) = 1 ∧
      (Speech.FeatureExtract (fun _ => []) (fun _ => 1) 1 1 4294967295
          (List.replicate 3 0)).length = 0 := by
  refine ⟨by norm_num, by norm_num, by norm_num, ?_⟩
  norm_num [Speech.FeatureExtract, Speech.u32sub, Speech.U32]

/-- Helper: the centroid-update step keeps the codebook size. -/
theorem lloydNewCwds_length (cwds qvec : List VQ.Vec) (qc : List ℕ) :
    (VQ.lloydNewCwds cwds qvec qc).length = cwds.length := by
  simp [VQ.lloydNewCwds]

/-- Helper: a converged Lloyd iteration keeps the codebook size. -/
theorem iterateLoop_length (vecs : List VQ.Vec) :
    ∀ fuel cwds d r, VQ.iterateLoop vecs fuel cwds d = some r →
      r.1.length = cwds.length := by
  intro fuel
  induction fuel with
  | zero =>
      intro cwds d r h
      simp [VQ.iterateLoop] at h
  | succ f ih =>
      intro cwds d r h
      simp only [VQ.iterateLoop] at h
      split at h
      · have := ih _ _ _ h
        rwa [lloydNewCwds_length] at this
      · cases h
        exact lloydNewCwds_length _ _ _

/-- Helper: the split step doubles the codebook size. -/
theorem splitCodewords_length (cwds : List VQ.Vec) :
    (VQ.splitCodewords cwds).length = 2 * cwds.length := by
  induction cwds with
  | nil => rfl
  | cons c t ih =>
      simp only [VQ.splitCodewords, List.map_cons, List.flatten_cons,
        List.length_append] at *
      simp only [List.length_cons, List.length_nil] at *
      omega

/-- Helper: a terminating run of the split-and-iterate loop multiplies the
codebook size by the smallest power of two that pushes it to at least the
desired count. -/
theorem splitLoop_length (vecs : List VQ.Vec) (desired innerFuel : ℕ) :
    ∀ outer cwds d cb,
      VQ.splitLoop vecs desired innerFuel outer cwds d = some cb →
      ∃ j, cb.length = 2 ^ j * cwds.length ∧ desired ≤ cb.length ∧
        (j = 0 ∨ 2 ^ (j - 1) * cwds.length < desired) := by
  intro outer
  induction outer with
  | zero =>
      intro cwds d cb h
      simp only [VQ.splitLoop] at h
      split at h
      · simp at h
      · cases h
        refine ⟨0, by simp, by omega, Or.inl rfl⟩
  | succ o ih =>
      intro cwds d cb h
      simp only [VQ.splitLoop] at h
      split at h
      case isTrue hlt =>
        cases hit : VQ.iterateLoop vecs innerFuel (VQ.splitCodewords cwds) d with
        | none => rw [hit] at h; simp at h
        | some r =>
            rw [hit] at h
            simp only [] at h
            have hrlen : r.1.length = 2 * cwds.length := by
              have := iterateLoop_length vecs innerFuel _ _ _ hit
              rwa [splitCodewords_length] at this
            obtain ⟨j, hj1, hj2, hj3⟩ := ih _ _ _ h
            refine ⟨j + 1, ?_, hj2, ?_⟩
            · rw [hj1, hrlen]; ring
            · right
              rcases hj3 with h0 | hj3
              · subst h0
                simpa using hlt
              · rcases j with _ | j2
                · simp only [Nat.zero_sub, pow_zero, one_mul] at hj3 ⊢
                  omega
                · have e1 : j2 + 1 - 1 = j2 := by omega
                  have e2 : j2 + 1 + 1 - 1 = j2 + 1 := by omega
                  rw [e1, hrlen] at hj3
                  rw [e2]
                  have hpow : 2 ^ (j2 + 1) * cwds.length =
                      2 ^ j2 * (2 * cwds.length) := by ring
                  omega
      case isFalse hge =>
        cases h
        refine ⟨0, by simp, by omega, Or.inl rfl⟩

/-- Claim C5: for every terminating run of the vector quantizer on at
least one input vector with desired_codewords >= 1, the final codebook
size is a power of two `2 ^ k` that is at least desired_codewords, and it
is the smallest such power of two reached by doubling from 1 (either k = 0
or the previous power `2 ^ (k-1)` was still below the target). -/
theorem claim_C5_vecquant_size (outerFuel innerFuel desired : ℕ)
    (vecs : List VQ.Vec) (cb : List VQ.Vec)
    (_hd : 1 ≤ desired) (_hv : 1 ≤ vecs.length)
    (h : VQ.vecquant outerFuel innerFuel desired vecs = some cb) :
    ∃ k, cb.length = 2 ^ k ∧ desired ≤ cb.length ∧
      (k = 0 ∨ 2 ^ (k - 1) < desired) := by
  simp only [VQ.vecquant] at h
  obtain ⟨j, hj1, hj2, hj3⟩ := splitLoop_length vecs desired innerFuel outerFuel _ _ _ h
  refine ⟨j, by simpa using hj1, hj2, ?_⟩
  rcases hj3 with h0 | hlt
  · exact Or.inl h0
  · right
    simpa using hlt

/-- Witness for claim C5: quantizing one vector with desired_codewords = 3
terminates with a codebook of size 4 = 2^2, the smallest power of two at
least 3. -/
theorem claim_C5_witness :
    VQ.vecquant 2 1 3 [VQ.vec_zero] =
        some [VQ.vec_zero, VQ.vec_zero, VQ.vec_zero, VQ.vec_zero] ∧
      ∃ k, ([VQ.vec_zero, VQ.vec_zero, VQ.vec_zero, VQ.vec_zero] :
          List VQ.Vec).length = 2 ^ k ∧
        3 ≤ ([VQ.vec_zero, VQ.vec_zero, VQ.vec_zero, VQ.vec_zero] :
          List VQ.Vec).length ∧ (k = 0 ∨ 2 ^ (k - 1) < 3) := by
  have hrun : VQ.vecquant 2 1 3 [VQ.vec_zero] =
      some [VQ.vec_zero, VQ.vec_zero, VQ.vec_zero, VQ.vec_zero] := by
    norm_num [VQ.vecquant, VQ.splitLoop, VQ.iterateLoop, VQ.lloydAssign,
      VQ.lloydNewCwds, VQ.distortion, VQ.closest_codeword, VQ.closestAux,
      VQ.splitCodewords, VQ.vec_add, VQ.vec_sub, VQ.vec_scale, VQ.vec_dot,
      VQ.vec_zero, VQ.num_dimensions, VQ.EPSILON, List.replicate,
      List.range_succ, List.getD]
  exact ⟨hrun, claim_C5_vecquant_size 2 1 3 [VQ.vec_zero] _
    (by norm_num) (by norm_num) hrun⟩

/-- Helper: accumulating vectors of the working dimension with `vec_add`
keeps the dimension and sums componentwise. -/
theorem foldl_vec_add_getD (vecs : List VQ.Vec) :
    ∀ acc : VQ.Vec, acc.length = VQ.num_dimensions →
      (∀ v ∈ vecs, v.length = VQ.num_dimensions) →
      (vecs.foldl VQ.vec_add acc).length = VQ.num_dimensions ∧
      ∀ j, j < VQ.num_dimensions →
        (vecs.foldl VQ.vec_add acc).getD j 0 =
          acc.getD j 0 + (vecs.map (fun v => v.getD j 0)).sum := by
  induction vecs with
  | nil =>
      intro acc hacc _
      simpa using hacc
  | cons v t ih =>
      intro acc hacc hdim
      have hv : v.length = VQ.num_dimensions := hdim v (by simp)
      have hadd : (VQ.vec_add acc v).length = VQ.num_dimensions := by
        simp [VQ.vec_add, hacc, hv]
      obtain ⟨hl, he⟩ := ih (VQ.vec_add acc v) hadd (fun w hw => hdim w (by simp [hw]))
      refine ⟨by simpa using hl, ?_⟩
      intro j hj
      rw [List.foldl_cons, he j hj]
      have hstep : (VQ.vec_add acc v).getD j 0 = acc.getD j 0 + v.getD j 0 := by
        have hj1 : j < acc.length := by omega
        have hj2 : j < v.length := by omega
        have hj3 : j < (VQ.vec_add acc v).length := by omega
        rw [List.getD_eq_getElem _ _ hj3, List.getD_eq_getElem _ _ hj1,
          List.getD_eq_getElem _ _ hj2]
        simp [VQ.vec_add]
      rw [hstep]
      simp
      ring

/-- Claim C8: for every non-empty input set of vectors (all of the working
dimension), with desired_codewords = 1 the vector quantizer terminates
immediately after initialization for any fuel, and its single output
codeword is componentwise exactly the arithmetic mean of the input
vectors: component j is the sum of the j-th components divided by the
number of vectors. -/
theorem claim_C8_single_codeword_mean (outerFuel innerFuel : ℕ)
    (vecs : List VQ.Vec) (_hv : 0 < vecs.length)
    (hdim : ∀ v ∈ vecs, v.length = VQ.num_dimensions) :
    ∃ c, VQ.vecquant outerFuel innerFuel 1 vecs = some [c] ∧
      c.length = VQ.num_dimensions ∧
      ∀ j, j < VQ.num_dimensions →
        c.getD j 0 = (vecs.map (fun v => v.getD j 0)).sum / (vecs.length : ℚ) := by
  obtain ⟨hflen, hfget⟩ := foldl_vec_add_getD vecs VQ.vec_zero
    (by simp [VQ.vec_zero]) hdim
  refine ⟨VQ.vec_scale (1 / (vecs.length : ℚ)) (vecs.foldl VQ.vec_add VQ.vec_zero),
    ?_, ?_, ?_⟩
  · simp only [VQ.vecquant]
    cases outerFuel with
    | zero => simp [VQ.splitLoop]
    | succ o => simp [VQ.splitLoop]
  · simp [VQ.vec_scale, hflen]
  · intro j hj
    have hjl : j < (vecs.foldl VQ.vec_add VQ.vec_zero).length := by omega
    have hjs : j < (VQ.vec_scale (1 / (vecs.length : ℚ))
        (vecs.foldl VQ.vec_add VQ.vec_zero)).length := by
      simp [VQ.vec_scale]
      omega
    have hz : VQ.vec_zero.getD j 0 = 0 := by
      have hj12 : j < VQ.vec_zero.length := by simp [VQ.vec_zero]; omega
      rw [List.getD_eq_getElem _ _ hj12]
      simp [VQ.vec_zero]
    have hsum := hfget j hj
    rw [hz, zero_add] at hsum
    rw [List.getD_eq_getElem _ _ hjs]
    simp only [VQ.vec_scale, List.getElem_map]
    rw [← List.getD_eq_getElem _ (0 : ℚ) hjl, hsum, mul_one_div]

/-- Witness for claim C8: quantizing the single vector (2, ..., 2) with
desired_codewords = 1 returns exactly that vector as the unique centroid
(the mean of one vector is itself). -/
theorem claim_C8_witness :
    ∃ c, VQ.vecquant 1 1 1 [List.replicate 12 (2 : ℚ)] = some [c] ∧
      c.length = VQ.num_dimensions ∧
      ∀ j, j < VQ.num_dimensions →
        c.getD j 0 = (([List.replicate 12 (2 : ℚ)] : List VQ.Vec).map
          (fun v => v.getD j 0)).sum / (([List.replicate 12 (2 : ℚ)] :
            List VQ.Vec).length : ℚ) :=
  claim_C8_single_codeword_mean 1 1 [List.replicate 12 (2 : ℚ)]
    (by norm_num) (by simp [VQ.num_dimensions])
